import Mathlib

set_option maxHeartbeats 1000000

/-! Shallow embedding of `conway.py` (Conway's Game of Life on a toroidal
grid).  Cells are stored as the glyph strings the source uses; Python ints
are modelled as `ℤ`, Python `%` as `Int.fmod` (floor modulus, the exact
Python semantics), Python list indexing (including negative indices and
IndexError) as `Option`-valued access, and the floats in the neighbour
offset computation as exact reals (the source's `10 ** -10` threshold in
`round_out` exists precisely to absorb float rounding error at the zeros
of cos/sin, so the exact-real model produces the same integer offsets). -/

open Real

/-- Glyph stored in an empty cell (`EMPTY` in the source). -/
def EMPTY : String := "░░"

/-- Glyph stored in a filled cell (`FILLED` in the source). -/
def FILLED : String := "▓▓"

def PATTERN_GLIDER : List (ℤ × ℤ) := [(2, 2), (2, 1), (2, 0), (1, 0), (0, 1)]

def PATTERN_LWSS : List (ℤ × ℤ) :=
  [(1, 0), (4, 0), (0, 1), (0, 2), (4, 2), (0, 3), (1, 3), (2, 3), (3, 3)]

def PATTERN_ACORN : List (ℤ × ℤ) :=
  [(1, 0), (3, 1), (0, 2), (1, 2), (4, 2), (5, 2), (6, 2)]

def PATTERN_BLOCK : List (ℤ × ℤ) := [(0, 0), (1, 0), (0, 1), (1, 1)]

def PATTERN_QUEEN : List (ℤ × ℤ) :=
  [(4, 0), (2, 1), (4, 1), (1, 2), (3, 2), (0, 3), (3, 3), (1, 4), (3, 4),
    (2, 5), (4, 5), (4, 6)]

/-- The `Grid` class: `data` is the list of rows (index `[y][x]`), each row a
list of cell glyph strings. -/
structure Grid where
  width : ℤ
  height : ℤ
  data : List (List String)
  generation : ℤ
  deriving DecidableEq, Repr

/-- Python list read `l[i]`: a negative index addresses from the end, an
out-of-range index raises IndexError (`none`). -/
def pyNth (l : List α) (i : ℤ) : Option α :=
  if 0 ≤ i then l[i.toNat]?
  else if 0 ≤ i + l.length then l[(i + l.length).toNat]?
  else none

/-- Python list write `l[i] = v`, same index semantics as `pyNth`. -/
def pySetNth (l : List α) (i : ℤ) (v : α) : Option (List α) :=
  if 0 ≤ i then
    if i < l.length then some (l.set i.toNat v) else none
  else if 0 ≤ i + l.length then some (l.set (i + l.length).toNat v)
  else none

/-- `Grid.__init__`: `data = [[EMPTY]*width for x in range(height)]`,
`generation = 0`.  The source performs no dimension validation: Python
`[c]*w` is empty for `w ≤ 0` and `range(h)` is empty for `h ≤ 0`, so
construction succeeds for every pair of integers. -/
def Grid.init (width height : ℤ) : Grid :=
  { width := width, height := height,
    data := List.replicate height.toNat (List.replicate width.toNat EMPTY),
    generation := 0 }

/-- `Grid.__getitem__`: wrap both coordinates with Python `%` (floor
modulus, `Int.fmod`), then index the row, then the column.  Python `%` by
zero raises ZeroDivisionError (`none`). -/
def Grid.getItem (g : Grid) (t : ℤ × ℤ) : Option String :=
  if g.width = 0 ∨ g.height = 0 then none
  else
    (pyNth g.data (Int.fmod t.2 g.height)).bind fun row =>
      pyNth row (Int.fmod t.1 g.width)

/-- `Grid.__setitem__`: wrap both coordinates, then assign into the row
(functionally: return the updated grid). -/
def Grid.setItem (g : Grid) (t : ℤ × ℤ) (v : String) : Option Grid :=
  if g.width = 0 ∨ g.height = 0 then none
  else
    (pyNth g.data (Int.fmod t.2 g.height)).bind fun row =>
      (pySetNth row (Int.fmod t.1 g.width) v).bind fun row2 =>
        (pySetNth g.data (Int.fmod t.2 g.height) row2).map fun d =>
          { g with data := d }

/-- `round_out` from the source: round to the nearest integer away from
zero, treating magnitudes below `10 ** -10` as zero (this threshold, which
absorbs float error at the zeros of cos/sin, is why the exact-real model
reproduces the float computation); `int(n/abs(n))` is the sign of `n`. -/
noncomputable def round_out (n : ℝ) : ℤ :=
  if |n| < 1 / 10 ^ 10 then 0
  else if n = 0 then 0
  else ⌈|n|⌉ * (if 0 < n then 1 else -1)

/-- The x-offset of the `n`-th neighbour exactly as `step` computes it:
`round_out(cos(n * pi / 4))`. -/
noncomputable def offx (n : ℕ) : ℤ := round_out (Real.cos (n * π / 4))

/-- The y-offset of the `n`-th neighbour: `round_out(sin(n * pi / 4))`. -/
noncomputable def offy (n : ℕ) : ℤ := round_out (Real.sin (n * π / 4))

/-- The inner `for n in range(8)` neighbour-counting loop of `step`,
abstracted over how the offset pair for index `n` is produced. -/
def neighboursWith (off : ℕ → ℤ × ℤ) (grid : Grid) (i j : ℤ) : Option ℕ :=
  (List.range 8).foldlM
    (fun acc n =>
      (grid.getItem (i + (off n).1, j + (off n).2)).map fun c =>
        if c = FILLED then acc + 1 else acc)
    0

/-- The body of the nested loop of `step` for one cell `(i, j)`: count the
neighbours in `grid`, then update the copy `nxt` by the rule. -/
def stepCellWith (off : ℕ → ℤ × ℤ) (grid nxt : Grid) (i j : ℤ) :
    Option Grid := do
  let neighbours ← neighboursWith off grid i j
  let c ← grid.getItem (i, j)
  if c = FILLED then
    if ¬(1 < neighbours ∧ neighbours < 4) then nxt.setItem (i, j) EMPTY
    else pure nxt
  else
    if neighbours = 3 then nxt.setItem (i, j) FILLED
    else pure nxt

/-- `step`, abstracted over the offset enumeration: deep-copy the grid,
bump the copy's generation, then run the nested
`for i in range(width): for j in range(height)` loop over the copy.  All
reads are from `grid`, all writes go to the copy. -/
def stepWith (off : ℕ → ℤ × ℤ) (grid : Grid) : Option Grid :=
  (List.range grid.width.toNat).foldlM
    (fun (acc : Grid) (i : ℕ) =>
      (List.range grid.height.toNat).foldlM
        (fun (acc2 : Grid) (j : ℕ) =>
          stepCellWith off grid acc2 (i : ℤ) (j : ℤ))
        acc)
    { grid with generation := grid.generation + 1 }

/-- `step` from the source, with the trigonometric offset computation. -/
noncomputable def step (grid : Grid) : Option Grid :=
  stepWith (fun n => (offx n, offy n)) grid

/-- The fixed integer Moore-neighbourhood offset table mandated by the
spec, in the order the trigonometric enumeration visits it. -/
def mooreOffsets : List (ℤ × ℤ) :=
  [(1, 0), (1, 1), (0, 1), (-1, 1), (-1, 0), (-1, -1), (0, -1), (1, -1)]

/-- Executable `step` over the fixed offset table (proved below to agree
with `step`). -/
def stepT (grid : Grid) : Option Grid :=
  stepWith (fun n => mooreOffsets.getD n (0, 0)) grid

/-- The number of Filled cells among the 8 toroidally wrapped Moore
neighbours of `(i, j)` in `g`. -/
def mooreCount (g : Grid) (i j : ℤ) : ℕ :=
  mooreOffsets.countP fun d => decide (g.getItem (i + d.1, j + d.2) = some FILLED)

/-- `add_pattern` from the source: set each offset cell to `FILLED`, in
pattern order. -/
def add_pattern (grid : Grid) (pattern : List (ℤ × ℤ)) (x y : ℤ) :
    Option Grid :=
  pattern.foldlM (fun g t => g.setItem (x + t.1, y + t.2) FILLED) grid

/-- The shape invariant of the spec: positive dimensions and exactly
`height` rows of exactly `width` cells. -/
def validGrid (g : Grid) : Prop :=
  0 < g.width ∧ 0 < g.height ∧ g.data.length = g.height.toNat ∧
    ∀ row ∈ g.data, row.length = g.width.toNat

instance : DecidablePred validGrid := fun g => by
  unfold validGrid; infer_instance

/-- Every cell of the grid holds one of the two `CellState` glyphs. -/
def twoValued (g : Grid) : Prop :=
  ∀ row ∈ g.data, ∀ c ∈ row, c = EMPTY ∨ c = FILLED

instance : DecidablePred twoValued := fun g => by
  unfold twoValued; infer_instance

/-- Raw (already-wrapped) access to the cell in column `x` of row `y`. -/
def cellAt (g : Grid) (x y : ℕ) : Option String :=
  (g.data[y]?).bind fun row => row[x]?

/-- The value the loop body of `step` leaves in a cell that held `c` and
has `n` Filled neighbours: a Filled cell survives (stays `FILLED` in the
copy) iff `1 < n < 4` and is cleared otherwise; any other cell is set to
`FILLED` when `n = 3` and is otherwise left as the copied original. -/
def ruleValue (c : String) (n : ℕ) : String :=
  if c = FILLED then (if 1 < n ∧ n < 4 then FILLED else EMPTY)
  else if n = 3 then FILLED else c

/-- The rule value of cell `(x, y)`, read from `g`. -/
def ruleOpt (g : Grid) (x y : ℕ) : Option String :=
  (cellAt g x y).map fun c => ruleValue c (mooreCount g (x : ℤ) (y : ℤ))

/-- Loop invariant for the write loop of `step`: the accumulator (the deep
copy being rewritten) keeps the input's dimensions and shape, has the
bumped generation, and each cell holds either its copied original value or
its rule value. -/
def stepAcc (g acc : Grid) : Prop :=
  acc.width = g.width ∧ acc.height = g.height ∧
  acc.generation = g.generation + 1 ∧ validGrid acc ∧
  ∀ x y : ℕ, cellAt acc x y = cellAt g x y ∨ cellAt acc x y = ruleOpt g x y

/-- 5×5 test grid: a horizontal blinker, Filled exactly at
(1,2), (2,2), (3,2). -/
def blinkerH : Grid :=
  { width := 5, height := 5,
    data := [[EMPTY, EMPTY, EMPTY, EMPTY, EMPTY],
             [EMPTY, EMPTY, EMPTY, EMPTY, EMPTY],
             [EMPTY, FILLED, FILLED, FILLED, EMPTY],
             [EMPTY, EMPTY, EMPTY, EMPTY, EMPTY],
             [EMPTY, EMPTY, EMPTY, EMPTY, EMPTY]],
    generation := 0 }

/-- 5×5 grid: a vertical blinker, Filled exactly at (2,1), (2,2), (2,3),
at generation 1. -/
def blinkerV : Grid :=
  { width := 5, height := 5,
    data := [[EMPTY, EMPTY, EMPTY, EMPTY, EMPTY],
             [EMPTY, EMPTY, FILLED, EMPTY, EMPTY],
             [EMPTY, EMPTY, FILLED, EMPTY, EMPTY],
             [EMPTY, EMPTY, FILLED, EMPTY, EMPTY],
             [EMPTY, EMPTY, EMPTY, EMPTY, EMPTY]],
    generation := 1 }

/-- The horizontal blinker again, two generations on. -/
def blinkerH2 : Grid := { blinkerH with generation := 2 }

/-- A 1×1 grid holding a single Filled cell. -/
def oneFilled : Grid :=
  { width := 1, height := 1, data := [[FILLED]], generation := 0 }

/-! ## Basic facts about wrapped access -/

lemma fmod_toNat_lt {a b : ℤ} (hb : 0 < b) : (Int.fmod a b).toNat < b.toNat := by
  have h1 : a.fmod b < b := Int.fmod_lt_of_pos a hb
  have h0 : 0 ≤ a.fmod b := Int.fmod_nonneg' a hb
  omega

lemma pyNth_of_nonneg {α : Type} {l : List α} {i : ℤ} (hi : 0 ≤ i) :
    pyNth l i = l[i.toNat]? := by
  simp [pyNth, hi]

lemma set_self_of_getElem? {α : Type} {l : List α} {n : ℕ} {a : α}
    (h : l[n]? = some a) : l.set n a = l := by
  induction l generalizing n with
  | nil => simp at h
  | cons x xs ih =>
    cases n with
    | zero => simp_all
    | succ m =>
      simp only [List.getElem?_cons_succ] at h
      simp [ih h]

/-- For a grid with positive dimensions, `__getitem__` is raw access at the
wrapped (hence in-range, non-negative) indices. -/
lemma getItem_eq_cellAt {g : Grid} (hw : 0 < g.width) (hh : 0 < g.height)
    (x y : ℤ) :
    g.getItem (x, y) =
      cellAt g (Int.fmod x g.width).toNat (Int.fmod y g.height).toNat := by
  unfold Grid.getItem cellAt
  rw [if_neg (by omega)]
  rw [pyNth_of_nonneg (Int.fmod_nonneg' y hh)]
  cases g.data[(Int.fmod y g.height).toNat]? with
  | none => rfl
  | some row => simp [pyNth_of_nonneg (Int.fmod_nonneg' x hw)]

lemma cellAt_valid {g : Grid} (hv : validGrid g) {x y : ℕ}
    (hx : x < g.width.toNat) (hy : y < g.height.toNat) :
    ∃ c, cellAt g x y = some c := by
  obtain ⟨hw, hh, hlen, hrows⟩ := hv
  have hy' : y < g.data.length := by omega
  have hrow : g.data[y]? = some g.data[y] := List.getElem?_eq_getElem hy'
  have hmem : g.data[y] ∈ g.data := List.getElem_mem hy'
  have hx' : x < g.data[y].length := by rw [hrows _ hmem]; exact hx
  exact ⟨g.data[y][x], by simp [cellAt, hrow, List.getElem?_eq_getElem hx']⟩

/-- For a valid grid, `__getitem__` always succeeds. -/
lemma getItem_total {g : Grid} (hv : validGrid g) (x y : ℤ) :
    ∃ c, g.getItem (x, y) = some c := by
  rw [getItem_eq_cellAt hv.1 hv.2.1]
  exact cellAt_valid hv (fmod_toNat_lt hv.1) (fmod_toNat_lt hv.2.1)

/-- Full characterization of a successful `__setitem__` on a valid grid:
it succeeds, preserves the dimensions, the generation and the shape
invariant, and rewrites exactly the wrapped target cell. -/
lemma setItem_valid {g : Grid} (hv : validGrid g) (x y : ℤ) (v : String) :
    ∃ g', g.setItem (x, y) v = some g' ∧
      g'.width = g.width ∧ g'.height = g.height ∧
      g'.generation = g.generation ∧ validGrid g' ∧
      ∀ a b : ℕ, cellAt g' a b =
        if a = (Int.fmod x g.width).toNat ∧ b = (Int.fmod y g.height).toNat
        then some v else cellAt g a b := by
  obtain ⟨hw, hh, hlen, hrows⟩ := hv
  have hfty : (0 : ℤ) ≤ Int.fmod y g.height := Int.fmod_nonneg' y hh
  have hftx : (0 : ℤ) ≤ Int.fmod x g.width := Int.fmod_nonneg' x hw
  have hyiR : (Int.fmod y g.height).toNat < g.data.length := by
    have := fmod_toNat_lt (a := y) hh; omega
  have hrowE : g.data[(Int.fmod y g.height).toNat]? =
      some g.data[(Int.fmod y g.height).toNat] := List.getElem?_eq_getElem hyiR
  have hmem : g.data[(Int.fmod y g.height).toNat] ∈ g.data :=
    List.getElem_mem hyiR
  have hxiR : (Int.fmod x g.width).toNat <
      g.data[(Int.fmod y g.height).toNat].length := by
    rw [hrows _ hmem]; exact fmod_toNat_lt hw
  have hsetrow :
      pySetNth g.data[(Int.fmod y g.height).toNat] (Int.fmod x g.width) v =
        some (g.data[(Int.fmod y g.height).toNat].set
          (Int.fmod x g.width).toNat v) := by
    unfold pySetNth
    rw [if_pos hftx, if_pos (by omega)]
  have hsetdata :
      pySetNth g.data (Int.fmod y g.height)
          (g.data[(Int.fmod y g.height).toNat].set (Int.fmod x g.width).toNat v) =
        some (g.data.set (Int.fmod y g.height).toNat
          (g.data[(Int.fmod y g.height).toNat].set (Int.fmod x g.width).toNat v)) := by
    unfold pySetNth
    rw [if_pos hfty, if_pos (by omega)]
  refine ⟨{ g with data := g.data.set (Int.fmod y g.height).toNat (g.data[(Int.fmod y g.height).toNat].set (Int.fmod x g.width).toNat v) }, ?_, rfl, rfl, rfl, ?_, ?_⟩
  · unfold Grid.setItem
    rw [if_neg (by omega), pyNth_of_nonneg hfty, hrowE]
    simp [hsetrow, hsetdata]
  · unfold validGrid
    refine ⟨hw, hh, by simpa using hlen, ?_⟩
    intro row hrow
    rcases List.mem_or_eq_of_mem_set hrow with h | h
    · exact hrows _ h
    · subst h; rw [List.length_set]; exact hrows _ hmem
  · intro a b
    by_cases hb : b = (Int.fmod y g.height).toNat
    · subst hb
      by_cases ha : a = (Int.fmod x g.width).toNat
      · subst ha
        rw [if_pos ⟨rfl, rfl⟩]
        unfold cellAt
        dsimp only
        rw [List.getElem?_set_self (by simpa using hyiR)]
        simp only [Option.some_bind]
        exact List.getElem?_set_self (by simpa using hxiR)
      · rw [if_neg (by tauto)]
        unfold cellAt
        dsimp only
        rw [List.getElem?_set_self (by simpa using hyiR), hrowE]
        simp only [Option.some_bind]
        rw [List.getElem?_set_ne (by omega)]
    · rw [if_neg (by tauto)]
      unfold cellAt
      dsimp only
      rw [List.getElem?_set_ne (by omega)]

/-- Writing back the value a cell already holds is a no-op. -/
lemma setItem_self {g : Grid} (hv : validGrid g) {x y : ℤ} {v : String}
    (hread : g.getItem (x, y) = some v) : g.setItem (x, y) v = some g := by
  obtain ⟨hw, hh, hlen, hrows⟩ := hv
  rw [getItem_eq_cellAt hw hh] at hread
  have hfty : (0 : ℤ) ≤ Int.fmod y g.height := Int.fmod_nonneg' y hh
  have hftx : (0 : ℤ) ≤ Int.fmod x g.width := Int.fmod_nonneg' x hw
  have hyiR : (Int.fmod y g.height).toNat < g.data.length := by
    have := fmod_toNat_lt (a := y) hh; omega
  have hrowE : g.data[(Int.fmod y g.height).toNat]? =
      some g.data[(Int.fmod y g.height).toNat] := List.getElem?_eq_getElem hyiR
  have hcell : g.data[(Int.fmod y g.height).toNat][(Int.fmod x g.width).toNat]? =
      some v := by
    unfold cellAt at hread
    rw [hrowE] at hread
    simpa using hread
  have hxiR : (Int.fmod x g.width).toNat <
      g.data[(Int.fmod y g.height).toNat].length := by
    by_contra h
    rw [List.getElem?_eq_none (by omega)] at hcell
    exact Option.noConfusion hcell
  have hsetrow :
      pySetNth g.data[(Int.fmod y g.height).toNat] (Int.fmod x g.width) v =
        some g.data[(Int.fmod y g.height).toNat] := by
    unfold pySetNth
    rw [if_pos hftx, if_pos (by omega)]
    rw [set_self_of_getElem? hcell]
  have hsetdata :
      pySetNth g.data (Int.fmod y g.height)
          g.data[(Int.fmod y g.height).toNat] = some g.data := by
    unfold pySetNth
    rw [if_pos hfty, if_pos (by omega)]
    rw [set_self_of_getElem? hrowE]
  unfold Grid.setItem
  rw [if_neg (by omega), pyNth_of_nonneg hfty, hrowE]
  simp [hsetrow, hsetdata]

/-! ## The trigonometric offsets equal the integer Moore offsets -/

lemma round_out_zero : round_out 0 = 0 := by
  unfold round_out
  norm_num

lemma round_out_one : round_out 1 = 1 := by
  unfold round_out
  norm_num

lemma round_out_neg_one : round_out (-1) = -1 := by
  unfold round_out
  norm_num

lemma sqrt2_facts : 1 ≤ Real.sqrt 2 ∧ Real.sqrt 2 ≤ 2 := by
  have h2 : Real.sqrt 2 ^ 2 = 2 := Real.sq_sqrt (by norm_num)
  have hpos : 0 ≤ Real.sqrt 2 := Real.sqrt_nonneg 2
  constructor <;> nlinarith

lemma round_out_sqrt2_half : round_out (Real.sqrt 2 / 2) = 1 := by
  obtain ⟨h1, h2⟩ := sqrt2_facts
  have hceil : ⌈Real.sqrt 2 / 2⌉ = 1 := by
    rw [Int.ceil_eq_iff]
    constructor <;> [push_cast; push_cast] <;> linarith
  unfold round_out
  rw [if_neg (by rw [abs_of_pos (by linarith)]; intro h; nlinarith),
    if_neg (by positivity), abs_of_pos (by linarith), hceil,
    if_pos (by linarith)]
  norm_num

lemma round_out_neg_sqrt2_half : round_out (-(Real.sqrt 2 / 2)) = -1 := by
  obtain ⟨h1, h2⟩ := sqrt2_facts
  have hceil : ⌈Real.sqrt 2 / 2⌉ = 1 := by
    rw [Int.ceil_eq_iff]
    constructor <;> [push_cast; push_cast] <;> linarith
  unfold round_out
  rw [if_neg (by rw [abs_neg, abs_of_pos (by linarith)]; intro h; nlinarith),
    if_neg (by intro h; nlinarith), abs_neg, abs_of_pos (by linarith), hceil,
    if_neg (by intro h; nlinarith)]
  norm_num

lemma offx_0 : offx 0 = 1 := by
  unfold offx
  norm_num [Real.cos_zero, round_out_one]

lemma offx_1 : offx 1 = 1 := by
  unfold offx
  rw [show ((1 : ℕ) : ℝ) * π / 4 = π / 4 by push_cast; ring]
  rw [Real.cos_pi_div_four, round_out_sqrt2_half]

lemma offx_2 : offx 2 = 0 := by
  unfold offx
  rw [show ((2 : ℕ) : ℝ) * π / 4 = π / 2 by push_cast; ring]
  rw [Real.cos_pi_div_two, round_out_zero]

lemma offx_3 : offx 3 = -1 := by
  unfold offx
  rw [show ((3 : ℕ) : ℝ) * π / 4 = π - π / 4 by push_cast; ring]
  rw [Real.cos_pi_sub, Real.cos_pi_div_four, round_out_neg_sqrt2_half]

lemma offx_4 : offx 4 = -1 := by
  unfold offx
  rw [show ((4 : ℕ) : ℝ) * π / 4 = π by push_cast; ring]
  rw [Real.cos_pi, round_out_neg_one]

lemma offx_5 : offx 5 = -1 := by
  unfold offx
  rw [show ((5 : ℕ) : ℝ) * π / 4 = π / 4 + π by push_cast; ring]
  rw [Real.cos_add_pi, Real.cos_pi_div_four, round_out_neg_sqrt2_half]

lemma offx_6 : offx 6 = 0 := by
  unfold offx
  rw [show ((6 : ℕ) : ℝ) * π / 4 = π / 2 + π by push_cast; ring]
  rw [Real.cos_add_pi, Real.cos_pi_div_two, neg_zero, round_out_zero]

lemma offx_7 : offx 7 = 1 := by
  unfold offx
  rw [show ((7 : ℕ) : ℝ) * π / 4 = (π - π / 4) + π by push_cast; ring]
  rw [Real.cos_add_pi, Real.cos_pi_sub, Real.cos_pi_div_four, neg_neg,
    round_out_sqrt2_half]

lemma offy_0 : offy 0 = 0 := by
  unfold offy
  norm_num [Real.sin_zero, round_out_zero]

lemma offy_1 : offy 1 = 1 := by
  unfold offy
  rw [show ((1 : ℕ) : ℝ) * π / 4 = π / 4 by push_cast; ring]
  rw [Real.sin_pi_div_four, round_out_sqrt2_half]

lemma offy_2 : offy 2 = 1 := by
  unfold offy
  rw [show ((2 : ℕ) : ℝ) * π / 4 = π / 2 by push_cast; ring]
  rw [Real.sin_pi_div_two, round_out_one]

lemma offy_3 : offy 3 = 1 := by
  unfold offy
  rw [show ((3 : ℕ) : ℝ) * π / 4 = π - π / 4 by push_cast; ring]
  rw [Real.sin_pi_sub, Real.sin_pi_div_four, round_out_sqrt2_half]

lemma offy_4 : offy 4 = 0 := by
  unfold offy
  rw [show ((4 : ℕ) : ℝ) * π / 4 = π by push_cast; ring]
  rw [Real.sin_pi, round_out_zero]

lemma offy_5 : offy 5 = -1 := by
  unfold offy
  rw [show ((5 : ℕ) : ℝ) * π / 4 = π / 4 + π by push_cast; ring]
  rw [Real.sin_add_pi, Real.sin_pi_div_four, round_out_neg_sqrt2_half]

lemma offy_6 : offy 6 = -1 := by
  unfold offy
  rw [show ((6 : ℕ) : ℝ) * π / 4 = π / 2 + π by push_cast; ring]
  rw [Real.sin_add_pi, Real.sin_pi_div_two, round_out_neg_one]

lemma offy_7 : offy 7 = -1 := by
  unfold offy
  rw [show ((7 : ℕ) : ℝ) * π / 4 = (π - π / 4) + π by push_cast; ring]
  rw [Real.sin_add_pi, Real.sin_pi_sub, Real.sin_pi_div_four,
    round_out_neg_sqrt2_half]

/-- The neighbour-counting loop does not distinguish the trigonometric
offset enumeration from the fixed table. -/
lemma neighbours_trig_eq_table :
    neighboursWith (fun n => (offx n, offy n)) =
      neighboursWith (fun n => mooreOffsets.getD n (0, 0)) := by
  funext g i j
  unfold neighboursWith
  rw [show List.range 8 = [0, 1, 2, 3, 4, 5, 6, 7] from rfl]
  simp [offx_0, offx_1, offx_2, offx_3, offx_4, offx_5, offx_6, offx_7,
    offy_0, offy_1, offy_2, offy_3, offy_4, offy_5, offy_6, offy_7,
    mooreOffsets]

/-- The source's `step` coincides with the executable table-driven step. -/
lemma step_eq_stepT : step = stepT := by
  funext g
  unfold step stepT stepWith stepCellWith
  simp only [neighbours_trig_eq_table]

/-! ## The neighbour count on a valid grid -/

lemma fmod_of_lt {a b : ℤ} (h0 : 0 ≤ a) (h : a < b) : Int.fmod a b = a := by
  rw [Int.fmod_eq_emod a (by omega), Int.emod_eq_of_lt h0 h]

/-- Wrapped access at already-in-range natural coordinates is raw access. -/
lemma getItem_nat {g : Grid} (hv : validGrid g) {i j : ℕ}
    (hi : i < g.width.toNat) (hj : j < g.height.toNat) :
    g.getItem ((i : ℤ), (j : ℤ)) = cellAt g i j := by
  rw [getItem_eq_cellAt hv.1 hv.2.1,
    fmod_of_lt (by positivity) (by omega),
    fmod_of_lt (by positivity) (by omega)]
  simp

/-- `setItem` at already-in-range natural coordinates. -/
lemma setItem_nat {g : Grid} (hv : validGrid g) {i j : ℕ}
    (hi : i < g.width.toNat) (hj : j < g.height.toNat) (v : String) :
    ∃ g', g.setItem ((i : ℤ), (j : ℤ)) v = some g' ∧
      g'.width = g.width ∧ g'.height = g.height ∧
      g'.generation = g.generation ∧ validGrid g' ∧
      ∀ a b : ℕ, cellAt g' a b =
        if a = i ∧ b = j then some v else cellAt g a b := by
  obtain ⟨g', h1, h2, h3, h4, h5, h6⟩ := setItem_valid hv (i : ℤ) (j : ℤ) v
  refine ⟨g', h1, h2, h3, h4, h5, ?_⟩
  intro a b
  rw [h6 a b, fmod_of_lt (by positivity) (by omega),
    fmod_of_lt (by positivity) (by omega)]
  simp

/-- Counting fold: if every read succeeds, the fold computes the count of
Filled reads. -/
lemma foldlM_count {g : Grid} (i j : ℤ)
    (hget : ∀ x y : ℤ, ∃ c, g.getItem (x, y) = some c) :
    ∀ (l : List (ℤ × ℤ)) (a : ℕ),
      l.foldlM (fun acc d => (g.getItem (i + d.1, j + d.2)).map
        fun c => if c = FILLED then acc + 1 else acc) a =
      some (a + l.countP fun d =>
        decide (g.getItem (i + d.1, j + d.2) = some FILLED)) := by
  intro l
  induction l with
  | nil => intro a; simp
  | cons d rest ih =>
    intro a
    obtain ⟨c, hc⟩ := hget (i + d.1) (j + d.2)
    simp only [List.foldlM_cons, hc, Option.map_some', Option.bind_eq_bind,
      Option.some_bind]
    rw [ih, List.countP_cons]
    simp only [hc, Option.some.injEq]
    by_cases hcf : c = FILLED
    · simp only [hcf, if_pos rfl, decide_eq_true_eq, Option.some.injEq]
      simp
      omega
    · rw [if_neg hcf]
      simp only [decide_eq_true_eq, Option.some.injEq]
      rw [if_neg (by simp [hcf])]
      omega

/-- On a valid grid the table-driven neighbour loop returns exactly the
Moore count. -/
lemma neighboursT_eq_count {g : Grid} (hv : validGrid g) (i j : ℤ) :
    neighboursWith (fun n => mooreOffsets.getD n (0, 0)) g i j =
      some (mooreCount g i j) := by
  unfold neighboursWith
  have hmap := List.foldlM_map (m := Option)
    (fun n => mooreOffsets.getD n (0, 0))
    (fun acc d => (g.getItem (i + d.1, j + d.2)).map
      fun c => if c = FILLED then acc + 1 else acc)
    (List.range 8) 0
  rw [← hmap,
    show (List.range 8).map (fun n => mooreOffsets.getD n (0, 0)) =
      mooreOffsets by rfl,
    foldlM_count i j (getItem_total hv) mooreOffsets 0]
  unfold mooreCount
  simp

/-! ## The step loop rewrites each cell to its rule value -/

/-- One pass of the loop body of `step` on a valid grid: it succeeds and
rewrites exactly cell `(i, j)` of the accumulator to its rule value,
provided the accumulator holds either the copied original or the rule
value there. -/
lemma stepCell_spec {g : Grid} (hv : validGrid g) {acc : Grid}
    (haw : acc.width = g.width) (hah : acc.height = g.height)
    (hav : validGrid acc) {i j : ℕ}
    (hi : i < g.width.toNat) (hj : j < g.height.toNat)
    {c : String} (hc : cellAt g i j = some c)
    (hacc : cellAt acc i j = some c ∨
      cellAt acc i j = some (ruleValue c (mooreCount g (i : ℤ) (j : ℤ)))) :
    ∃ acc', stepCellWith (fun n => mooreOffsets.getD n (0, 0)) g acc
        (i : ℤ) (j : ℤ) = some acc' ∧
      acc'.width = acc.width ∧ acc'.height = acc.height ∧
      acc'.generation = acc.generation ∧ validGrid acc' ∧
      ∀ a b : ℕ, cellAt acc' a b =
        if a = i ∧ b = j
        then some (ruleValue c (mooreCount g (i : ℤ) (j : ℤ)))
        else cellAt acc a b := by
  have hn := neighboursT_eq_count hv (i : ℤ) (j : ℤ)
  have hgi : g.getItem ((i : ℤ), (j : ℤ)) = some c := by
    rw [getItem_nat hv hi hj]; exact hc
  unfold stepCellWith
  simp only [hn, hgi, Option.bind_eq_bind, Option.some_bind]
  by_cases hcf : c = FILLED
  · rw [if_pos hcf]
    by_cases hsurv : 1 < mooreCount g (i : ℤ) (j : ℤ) ∧
        mooreCount g (i : ℤ) (j : ℤ) < 4
    · rw [if_neg (not_not_intro hsurv)]
      have hrv : ruleValue c (mooreCount g (i : ℤ) (j : ℤ)) = c := by
        unfold ruleValue
        rw [if_pos hcf, if_pos hsurv, hcf]
      refine ⟨acc, rfl, rfl, rfl, rfl, hav, ?_⟩
      intro a b
      by_cases hab : a = i ∧ b = j
      · obtain ⟨ha, hb⟩ := hab
        subst ha; subst hb
        rw [if_pos ⟨rfl, rfl⟩, hrv]
        rcases hacc with h | h
        · exact h
        · rw [h, hrv]
      · rw [if_neg hab]
    · rw [if_pos hsurv]
      have hi' : i < acc.width.toNat := by rw [haw]; exact hi
      have hj' : j < acc.height.toNat := by rw [hah]; exact hj
      obtain ⟨acc', h1, h2, h3, h4, h5, h6⟩ := setItem_nat hav hi' hj' EMPTY
      have hrv : ruleValue c (mooreCount g (i : ℤ) (j : ℤ)) = EMPTY := by
        unfold ruleValue
        rw [if_pos hcf, if_neg hsurv]
      refine ⟨acc', h1, by rw [h2, haw], by rw [h3, hah], h4, h5, ?_⟩
      intro a b
      rw [h6 a b, hrv]
  · rw [if_neg hcf]
    by_cases hb3 : mooreCount g (i : ℤ) (j : ℤ) = 3
    · rw [if_pos hb3]
      have hi' : i < acc.width.toNat := by rw [haw]; exact hi
      have hj' : j < acc.height.toNat := by rw [hah]; exact hj
      obtain ⟨acc', h1, h2, h3, h4, h5, h6⟩ := setItem_nat hav hi' hj' FILLED
      have hrv : ruleValue c (mooreCount g (i : ℤ) (j : ℤ)) = FILLED := by
        unfold ruleValue
        rw [if_neg hcf, if_pos hb3]
      refine ⟨acc', h1, by rw [h2, haw], by rw [h3, hah], h4, h5, ?_⟩
      intro a b
      rw [h6 a b, hrv]
    · rw [if_neg hb3]
      have hrv : ruleValue c (mooreCount g (i : ℤ) (j : ℤ)) = c := by
        unfold ruleValue
        rw [if_neg hcf, if_neg hb3]
      refine ⟨acc, rfl, rfl, rfl, rfl, hav, ?_⟩
      intro a b
      by_cases hab : a = i ∧ b = j
      · obtain ⟨ha, hb⟩ := hab
        subst ha; subst hb
        rw [if_pos ⟨rfl, rfl⟩, hrv]
        rcases hacc with h | h
        · exact h
        · rw [h, hrv]
      · rw [if_neg hab]

/-- The inner `for j in range(height)` loop, over any list of in-range row
indices: every visited cell of column `i` is rewritten to its rule value. -/
lemma inner_fold_spec {g : Grid} (hv : validGrid g) {i : ℕ}
    (hi : i < g.width.toNat) :
    ∀ (js : List ℕ), (∀ j ∈ js, j < g.height.toNat) →
    ∀ acc, stepAcc g acc →
    ∃ acc', js.foldlM (fun (a : Grid) (j : ℕ) => stepCellWith
        (fun n => mooreOffsets.getD n (0, 0)) g a (i : ℤ) (j : ℤ)) acc =
        some acc' ∧
      stepAcc g acc' ∧
      ∀ x y : ℕ, cellAt acc' x y =
        if x = i ∧ y ∈ js then ruleOpt g x y else cellAt acc x y := by
  intro js
  induction js with
  | nil =>
    intro _ acc hacc
    refine ⟨acc, rfl, hacc, ?_⟩
    intro x y
    simp
  | cons j js ih =>
    intro hjs acc hacc
    have hj : j < g.height.toNat := hjs j (List.mem_cons_self j js)
    obtain ⟨c, hc⟩ := cellAt_valid hv hi hj
    have hro : ruleOpt g i j = some (ruleValue c (mooreCount g (i : ℤ) (j : ℤ))) := by
      unfold ruleOpt
      rw [hc]
      rfl
    obtain ⟨hw', hh', hg', hv', hcells⟩ := hacc
    have hdisj : cellAt acc i j = some c ∨
        cellAt acc i j = some (ruleValue c (mooreCount g (i : ℤ) (j : ℤ))) := by
      rcases hcells i j with h | h
      · left; rw [h, hc]
      · right; rw [h, hro]
    obtain ⟨acc1, h1, h2, h3, h4, h5, h6⟩ :=
      stepCell_spec hv hw' hh' hv' hi hj hc hdisj
    have hacc1 : stepAcc g acc1 := by
      refine ⟨by rw [h2, hw'], by rw [h3, hh'], by rw [h4, hg'], h5, ?_⟩
      intro x y
      rw [h6 x y]
      by_cases hab : x = i ∧ y = j
      · obtain ⟨hx, hy⟩ := hab
        subst hx; subst hy
        rw [if_pos ⟨rfl, rfl⟩]
        right
        rw [hro]
      · rw [if_neg hab]
        exact hcells x y
    obtain ⟨acc', hfold, hsa, hcell⟩ :=
      ih (fun j' hj' => hjs j' (List.mem_cons_of_mem _ hj')) acc1 hacc1
    refine ⟨acc', ?_, hsa, ?_⟩
    · rw [List.foldlM_cons, h1]
      simp only [Option.bind_eq_bind, Option.some_bind]
      exact hfold
    · intro x y
      rw [hcell x y, h6 x y]
      by_cases hxi : x = i
      · subst hxi
        by_cases hyj : y = j
        · subst hyj
          by_cases hym : y ∈ js
          · rw [if_pos ⟨rfl, hym⟩, if_pos ⟨rfl, List.mem_cons_self y js⟩]
          · rw [if_neg (fun h => hym h.2), if_pos ⟨rfl, rfl⟩,
              if_pos ⟨rfl, List.mem_cons_self y js⟩, hro]
        · by_cases hym : y ∈ js
          · rw [if_pos ⟨rfl, hym⟩,
              if_pos ⟨rfl, List.mem_cons_of_mem _ hym⟩]
          · rw [if_neg (fun h => hym h.2), if_neg (fun h => hyj h.2),
              if_neg (fun h => by
                rcases List.mem_cons.mp h.2 with h' | h'
                · exact hyj h'
                · exact hym h')]
      · rw [if_neg (fun h => hxi h.1), if_neg (fun h => hxi h.1),
          if_neg (fun h => hxi h.1)]

/-- The outer `for i in range(width)` loop, over any list of in-range
column indices. -/
lemma outer_fold_spec {g : Grid} (hv : validGrid g) :
    ∀ (is : List ℕ), (∀ i ∈ is, i < g.width.toNat) →
    ∀ acc, stepAcc g acc →
    ∃ acc', is.foldlM (fun (a : Grid) (i : ℕ) =>
        (List.range g.height.toNat).foldlM
        (fun (a2 : Grid) (j : ℕ) => stepCellWith
          (fun n => mooreOffsets.getD n (0, 0))
          g a2 (i : ℤ) (j : ℤ)) a) acc = some acc' ∧
      stepAcc g acc' ∧
      ∀ x y : ℕ, cellAt acc' x y =
        if x ∈ is ∧ y < g.height.toNat then ruleOpt g x y
        else cellAt acc x y := by
  intro is
  induction is with
  | nil =>
    intro _ acc hacc
    refine ⟨acc, rfl, hacc, ?_⟩
    intro x y
    simp
  | cons i is ih =>
    intro his acc hacc
    have hi : i < g.width.toNat := his i (List.mem_cons_self i is)
    obtain ⟨acc1, h1, hsa1, hcell1⟩ :=
      inner_fold_spec hv hi (List.range g.height.toNat)
        (fun j hj => List.mem_range.mp hj) acc hacc
    obtain ⟨acc', hfold, hsa, hcell⟩ :=
      ih (fun i' hi' => his i' (List.mem_cons_of_mem _ hi')) acc1 hsa1
    refine ⟨acc', ?_, hsa, ?_⟩
    · rw [List.foldlM_cons, h1]
      simp only [Option.bind_eq_bind, Option.some_bind]
      exact hfold
    · intro x y
      rw [hcell x y, hcell1 x y]
      by_cases hyh : y < g.height.toNat
      · by_cases hxs : x ∈ is
        · rw [if_pos ⟨hxs, hyh⟩, if_pos ⟨List.mem_cons_of_mem _ hxs, hyh⟩]
        · by_cases hxi : x = i
          · subst hxi
            rw [if_neg (fun h => hxs h.1),
              if_pos ⟨rfl, List.mem_range.mpr hyh⟩,
              if_pos ⟨List.mem_cons_self x is, hyh⟩]
          · rw [if_neg (fun h => hxs h.1), if_neg (fun h => hxi h.1),
              if_neg (fun h => by
                rcases List.mem_cons.mp h.1 with h' | h'
                · exact hxi h'
                · exact hxs h')]
      · rw [if_neg (fun h => hyh h.2),
          if_neg (fun h => hyh (List.mem_range.mp h.2)),
          if_neg (fun h => hyh h.2)]

/-- Full characterization of the table-driven step on a valid grid. -/
lemma stepT_spec {g : Grid} (hv : validGrid g) :
    ∃ g', stepT g = some g' ∧ g'.width = g.width ∧ g'.height = g.height ∧
      g'.generation = g.generation + 1 ∧ validGrid g' ∧
      ∀ x y : ℕ, x < g.width.toNat → y < g.height.toNat →
        cellAt g' x y = ruleOpt g x y := by
  have hacc0 : stepAcc g { g with generation := g.generation + 1 } := by
    obtain ⟨hw, hh, hlen, hrows⟩ := hv
    exact ⟨rfl, rfl, rfl, ⟨hw, hh, hlen, hrows⟩, fun x y => Or.inl rfl⟩
  obtain ⟨g', hfold, ⟨hw', hh', hg', hv', _⟩, hcell⟩ :=
    outer_fold_spec hv (List.range g.width.toNat)
      (fun i hi => List.mem_range.mp hi)
      { g with generation := g.generation + 1 } hacc0
  refine ⟨g', ?_, hw', hh', hg', hv', ?_⟩
  · unfold stepT stepWith
    exact hfold
  · intro x y hx hy
    rw [hcell x y, if_pos ⟨List.mem_range.mpr hx, hy⟩]

/-! ## Pattern stamping -/

/-- `add_pattern` on a valid grid: it succeeds, preserves dimensions,
generation and the shape invariant, leaves every stamped cell reading
`FILLED`, and changes cells only to `FILLED`. -/
lemma add_pattern_spec :
    ∀ (p : List (ℤ × ℤ)) (g : Grid), validGrid g → ∀ (x y : ℤ),
    ∃ g', add_pattern g p x y = some g' ∧
      g'.width = g.width ∧ g'.height = g.height ∧
      g'.generation = g.generation ∧ validGrid g' ∧
      (∀ t ∈ p, g'.getItem (x + t.1, y + t.2) = some FILLED) ∧
      (∀ a b : ℕ, cellAt g' a b = cellAt g a b ∨ cellAt g' a b = some FILLED) := by
  intro p
  induction p with
  | nil =>
    intro g hv x y
    refine ⟨g, rfl, rfl, rfl, rfl, hv, ?_, fun a b => Or.inl rfl⟩
    intro t ht
    simp at ht
  | cons t p ih =>
    intro g hv x y
    obtain ⟨g1, hs1, hw1, hh1, hgen1, hv1, hcell1⟩ :=
      setItem_valid hv (x + t.1) (y + t.2) FILLED
    obtain ⟨g', hs', hw', hh', hgen', hv', hfill', hmono'⟩ := ih g1 hv1 x y
    refine ⟨g', ?_, by rw [hw', hw1], by rw [hh', hh1],
      by rw [hgen', hgen1], hv', ?_, ?_⟩
    · unfold add_pattern
      rw [List.foldlM_cons, hs1]
      simp only [Option.bind_eq_bind, Option.some_bind]
      unfold add_pattern at hs'
      exact hs'
    · intro t' ht'
      rcases List.mem_cons.mp ht' with h | h
      · subst h
        rw [getItem_eq_cellAt hv'.1 hv'.2.1]
        have hwq : g'.width = g.width := by rw [hw', hw1]
        have hhq : g'.height = g.height := by rw [hh', hh1]
        rw [hwq, hhq]
        have hg1 : cellAt g1 (Int.fmod (x + t'.1) g.width).toNat
            (Int.fmod (y + t'.2) g.height).toNat = some FILLED := by
          rw [hcell1, if_pos ⟨rfl, rfl⟩]
        rcases hmono' (Int.fmod (x + t'.1) g.width).toNat
            (Int.fmod (y + t'.2) g.height).toNat with h' | h'
        · rw [h', hg1]
        · exact h'
      · exact hfill' t' h
    · intro a b
      rcases hmono' a b with h | h
      · rw [h, hcell1]
        by_cases hab : a = (Int.fmod (x + t.1) g.width).toNat ∧
            b = (Int.fmod (y + t.2) g.height).toNat
        · rw [if_pos hab]
          right
          rfl
        · rw [if_neg hab]
          left
          rfl
      · right
        exact h

/-- Re-stamping a pattern whose cells already read `FILLED` is a no-op. -/
lemma add_pattern_noop {g : Grid} (hv : validGrid g) :
    ∀ (p : List (ℤ × ℤ)) (x y : ℤ),
    (∀ t ∈ p, g.getItem (x + t.1, y + t.2) = some FILLED) →
    add_pattern g p x y = some g := by
  intro p
  induction p with
  | nil => intro x y _; rfl
  | cons t p ih =>
    intro x y hfill
    unfold add_pattern
    rw [List.foldlM_cons,
      setItem_self hv (hfill t (List.mem_cons_self t p))]
    simp only [Option.bind_eq_bind, Option.some_bind]
    exact ih x y (fun t' ht' => hfill t' (List.mem_cons_of_mem _ ht'))

/-! ## The cell-state domain is closed under the operations -/

lemma pyNth_mem {α : Type} {l : List α} {i : ℤ} {a : α}
    (h : pyNth l i = some a) : a ∈ l := by
  unfold pyNth at h
  split_ifs at h
  · exact List.getElem?_mem h
  · exact List.getElem?_mem h

lemma pySetNth_eq_set {α : Type} {l : List α} {i : ℤ} {v : α} {l' : List α}
    (h : pySetNth l i v = some l') : ∃ k, l' = l.set k v := by
  unfold pySetNth at h
  split_ifs at h
  · exact ⟨i.toNat, (Option.some.inj h).symm⟩
  · exact ⟨(i + l.length).toNat, (Option.some.inj h).symm⟩

/-- A successful `setItem` with an `EMPTY`/`FILLED` value keeps the grid
two-valued (no validity assumption needed). -/
lemma setItem_twoValued {g g' : Grid} {t : ℤ × ℤ} {v : String}
    (hset : g.setItem t v = some g') (hvtv : v = EMPTY ∨ v = FILLED)
    (htv : twoValued g) : twoValued g' := by
  unfold Grid.setItem at hset
  by_cases hz : g.width = 0 ∨ g.height = 0
  · rw [if_pos hz] at hset
    exact Option.noConfusion hset
  rw [if_neg hz] at hset
  rw [Option.bind_eq_some] at hset
  obtain ⟨row, hrow, hset⟩ := hset
  rw [Option.bind_eq_some] at hset
  obtain ⟨row2, hrow2, hset⟩ := hset
  rw [Option.map_eq_some'] at hset
  obtain ⟨d, hd, hg'⟩ := hset
  obtain ⟨k2, hk2⟩ := pySetNth_eq_set hrow2
  obtain ⟨k, hk⟩ := pySetNth_eq_set hd
  subst hg'
  unfold twoValued at htv ⊢
  intro r hr c hc
  rw [show ({ g with data := d } : Grid).data = d from rfl] at hr
  subst hk
  rcases List.mem_or_eq_of_mem_set hr with h | h
  · exact htv r h c hc
  · subst h
    subst hk2
    rcases List.mem_or_eq_of_mem_set hc with h' | h'
    · exact htv row (pyNth_mem hrow) c h'
    · subst h'
      exact hvtv

/-- A property preserved by every successful fold step is preserved by a
successful `foldlM` over `Option`. -/
lemma foldlM_preserve {α β : Type} (P : β → Prop) (f : β → α → Option β) :
    ∀ (l : List α) (b b' : β),
    (∀ a c c', f c a = some c' → P c → P c') →
    l.foldlM f b = some b' → P b → P b' := by
  intro l
  induction l with
  | nil =>
    intro b b' _ h hb
    rw [List.foldlM_nil] at h
    cases h
    exact hb
  | cons a l ih =>
    intro b b' hstep h hb
    rw [List.foldlM_cons, Option.bind_eq_bind] at h
    obtain ⟨c, hc, h⟩ := Option.bind_eq_some.mp h
    exact ih c b' hstep h (hstep a b c hc hb)

/-- One step-loop body pass writes only `EMPTY` or `FILLED`. -/
lemma stepCell_twoValued {off : ℕ → ℤ × ℤ} {g acc acc' : Grid} {i j : ℤ}
    (h : stepCellWith off g acc i j = some acc') (htv : twoValued acc) :
    twoValued acc' := by
  unfold stepCellWith at h
  rw [Option.bind_eq_bind] at h
  obtain ⟨n, _, h⟩ := Option.bind_eq_some.mp h
  rw [Option.bind_eq_bind] at h
  obtain ⟨c, _, h⟩ := Option.bind_eq_some.mp h
  split_ifs at h
  all_goals
    first
      | exact setItem_twoValued h (Or.inl rfl) htv
      | exact setItem_twoValued h (Or.inr rfl) htv
      | (cases h; exact htv)

/-- A successful `stepWith` (any offset enumeration) preserves
two-valuedness. -/
lemma stepWith_twoValued {off : ℕ → ℤ × ℤ} {g g' : Grid}
    (h : stepWith off g = some g') (htv : twoValued g) : twoValued g' := by
  unfold stepWith at h
  have hpres : twoValued { g with generation := g.generation + 1 } := htv
  refine foldlM_preserve twoValued _ _ _ _ ?_ h hpres
  intro i acc acc1 hstep htv1
  refine foldlM_preserve twoValued _ _ _ _ ?_ hstep htv1
  intro j acc2 acc3 hstep2 htv2
  exact stepCell_twoValued hstep2 htv2

/-- A successful `add_pattern` preserves two-valuedness (it writes only
`FILLED`). -/
lemma add_pattern_twoValued {g g' : Grid} {p : List (ℤ × ℤ)} {x y : ℤ}
    (h : add_pattern g p x y = some g') (htv : twoValued g) :
    twoValued g' := by
  unfold add_pattern at h
  refine foldlM_preserve twoValued _ _ _ _ ?_ h htv
  intro t acc acc1 hset htv'
  exact setItem_twoValued hset (Or.inr rfl) htv'

/-! ## Constructed grids -/

/-- For positive dimensions, `Grid.__init__` establishes the shape
invariant. -/
lemma init_valid {w h : ℤ} (hw : 0 < w) (hh : 0 < h) :
    validGrid (Grid.init w h) := by
  refine ⟨hw, hh, by simp [Grid.init], ?_⟩
  intro row hrow
  rw [List.eq_of_mem_replicate hrow]
  simp [Grid.init]

/-- Every wrapped read of a freshly constructed grid yields `EMPTY`. -/
lemma init_getItem {w h : ℤ} (hw : 0 < w) (hh : 0 < h) (x y : ℤ) :
    (Grid.init w h).getItem (x, y) = some EMPTY := by
  rw [getItem_eq_cellAt hw hh]
  unfold cellAt Grid.init
  rw [List.getElem?_replicate_of_lt (fmod_toNat_lt hh)]
  simp only [Option.some_bind]
  rw [List.getElem?_replicate_of_lt (fmod_toNat_lt hw)]

/-! ## The claims -/

/-- C1, counterexample: constructing a grid with non-positive width or
height does not fail — the source has no `InvalidDimension` check:
`Grid.__init__` is total, and `Grid(0, 5)` and `Grid(-1, 3)` construct
ordinary generation-0 grids (with empty rows). -/
theorem claim_C1_counterexample :
    Grid.init 0 5 =
      { width := 0, height := 5, data := List.replicate 5 [],
        generation := 0 } ∧
    Grid.init (-1) 3 =
      { width := -1, height := 3, data := List.replicate 3 [],
        generation := 0 } := by
  constructor <;> rfl

/-- C1, amended: construction never fails — the source performs no
dimension validation.  For every positive width and height the
constructed grid has generation 0, the requested dimensions, the shape
invariant, and every (wrapped) read yields `EMPTY`. -/
theorem claim_C1_amended (w h : ℤ) (hw : 0 < w) (hh : 0 < h) :
    (Grid.init w h).generation = 0 ∧
    (Grid.init w h).width = w ∧ (Grid.init w h).height = h ∧
    validGrid (Grid.init w h) ∧
    ∀ x y : ℤ, (Grid.init w h).getItem (x, y) = some EMPTY :=
  ⟨rfl, rfl, rfl, init_valid hw hh, init_getItem hw hh⟩

theorem claim_C1_amended_witness :
    (0 : ℤ) < 3 ∧ (0 : ℤ) < 2 ∧
    ((Grid.init 3 2).generation = 0 ∧
     (Grid.init 3 2).width = 3 ∧ (Grid.init 3 2).height = 2 ∧
     validGrid (Grid.init 3 2) ∧
     ∀ x y : ℤ, (Grid.init 3 2).getItem (x, y) = some EMPTY) :=
  ⟨by decide, by decide, claim_C1_amended 3 2 (by decide) (by decide)⟩

/-- C2: toroidal wraparound on any valid grid — reads are invariant under
shifting `x` by the width or `y` by the height, `get(-1, 0)` equals
`get(W-1, 0)`, the wrap maps every integer coordinate to a non-negative
index in `[0, W) × [0, H)` (floor modulus), and every read succeeds. -/
theorem claim_C2 (g : Grid) (hv : validGrid g) (x y : ℤ) :
    g.getItem (x + g.width, y) = g.getItem (x, y) ∧
    g.getItem (x, y + g.height) = g.getItem (x, y) ∧
    g.getItem (-1, 0) = g.getItem (g.width - 1, 0) ∧
    (0 ≤ Int.fmod x g.width ∧ Int.fmod x g.width < g.width ∧
     0 ≤ Int.fmod y g.height ∧ Int.fmod y g.height < g.height) ∧
    ∃ c, g.getItem (x, y) = some c := by
  have hw := hv.1
  have hh := hv.2.1
  have hx : Int.fmod (x + g.width) g.width = Int.fmod x g.width := by
    rw [Int.fmod_eq_emod _ (le_of_lt hw), Int.fmod_eq_emod _ (le_of_lt hw)]
    have h := Int.add_mul_emod_self_left (a := x) (b := g.width) (c := 1)
    rw [mul_one] at h
    exact h
  have hy : Int.fmod (y + g.height) g.height = Int.fmod y g.height := by
    rw [Int.fmod_eq_emod _ (le_of_lt hh), Int.fmod_eq_emod _ (le_of_lt hh)]
    have h := Int.add_mul_emod_self_left (a := y) (b := g.height) (c := 1)
    rw [mul_one] at h
    exact h
  have hneg : Int.fmod (-1) g.width = Int.fmod (g.width - 1) g.width := by
    rw [Int.fmod_eq_emod _ (le_of_lt hw), Int.fmod_eq_emod _ (le_of_lt hw)]
    have h := Int.add_mul_emod_self_left (a := (-1 : ℤ)) (b := g.width) (c := 1)
    rw [show (-1 : ℤ) + g.width * 1 = g.width - 1 by ring] at h
    exact h.symm
  refine ⟨?_, ?_, ?_, ⟨Int.fmod_nonneg' x hw, Int.fmod_lt_of_pos x hw,
    Int.fmod_nonneg' y hh, Int.fmod_lt_of_pos y hh⟩, getItem_total hv x y⟩
  · rw [getItem_eq_cellAt hw hh, getItem_eq_cellAt hw hh, hx]
  · rw [getItem_eq_cellAt hw hh, getItem_eq_cellAt hw hh, hy]
  · rw [getItem_eq_cellAt hw hh, getItem_eq_cellAt hw hh, hneg]

theorem claim_C2_witness :
    validGrid blinkerH ∧
    (blinkerH.getItem (7 + blinkerH.width, -3) = blinkerH.getItem (7, -3) ∧
     blinkerH.getItem (7, -3 + blinkerH.height) = blinkerH.getItem (7, -3) ∧
     blinkerH.getItem (-1, 0) = blinkerH.getItem (blinkerH.width - 1, 0) ∧
     (0 ≤ Int.fmod 7 blinkerH.width ∧ Int.fmod 7 blinkerH.width < blinkerH.width ∧
      0 ≤ Int.fmod (-3) blinkerH.height ∧
      Int.fmod (-3) blinkerH.height < blinkerH.height) ∧
     ∃ c, blinkerH.getItem (7, -3) = some c) :=
  ⟨by decide, claim_C2 blinkerH (by decide) 7 (-3)⟩

/-- C3: on a valid grid `step` always succeeds and is purely functional —
in this embedding the input is a value the call cannot change, matching
the source's deep copy (independent storage); the result keeps the
dimensions and has generation exactly one higher. -/
theorem claim_C3 (g : Grid) (hv : validGrid g) :
    ∃ g', step g = some g' ∧ g'.generation = g.generation + 1 ∧
      g'.width = g.width ∧ g'.height = g.height ∧ validGrid g' := by
  rw [step_eq_stepT]
  obtain ⟨g', h1, h2, h3, h4, h5, _⟩ := stepT_spec hv
  exact ⟨g', h1, h4, h2, h3, h5⟩

theorem claim_C3_witness :
    validGrid blinkerH ∧
    ∃ g', step blinkerH = some g' ∧
      g'.generation = blinkerH.generation + 1 ∧
      g'.width = blinkerH.width ∧ g'.height = blinkerH.height ∧
      validGrid g' :=
  ⟨by decide, claim_C3 blinkerH (by decide)⟩

/-- C4: the life rule, per in-range cell, with every neighbour count read
from the input grid `g` (`mooreCount g` — `step` reads only `grid`, all
writes go to the copy): a Filled cell of `g` is Filled in `step g` iff
its toroidal Moore count is 2 or 3, and Empty otherwise; an Empty cell is
Filled iff that count is exactly 3, and Empty otherwise. -/
theorem claim_C4 (g : Grid) (hv : validGrid g) (i j : ℕ)
    (hi : i < g.width.toNat) (hj : j < g.height.toNat) :
    ∃ g', step g = some g' ∧
      (g.getItem ((i : ℤ), (j : ℤ)) = some FILLED →
        g'.getItem ((i : ℤ), (j : ℤ)) =
          some (if mooreCount g (i : ℤ) (j : ℤ) = 2 ∨
              mooreCount g (i : ℤ) (j : ℤ) = 3 then FILLED else EMPTY)) ∧
      (g.getItem ((i : ℤ), (j : ℤ)) = some EMPTY →
        g'.getItem ((i : ℤ), (j : ℤ)) =
          some (if mooreCount g (i : ℤ) (j : ℤ) = 3
            then FILLED else EMPTY)) := by
  rw [step_eq_stepT]
  obtain ⟨g', h1, hw', hh', _, hv', hcell⟩ := stepT_spec hv
  have hi' : i < g'.width.toNat := by rw [hw']; exact hi
  have hj' : j < g'.height.toNat := by rw [hh']; exact hj
  refine ⟨g', h1, ?_, ?_⟩
  · intro hfill
    rw [getItem_nat hv hi hj] at hfill
    rw [getItem_nat hv' hi' hj', hcell i j hi hj]
    unfold ruleOpt
    rw [hfill]
    simp only [Option.map_some']
    unfold ruleValue
    rw [if_pos rfl]
    congr 1
    by_cases h23 : mooreCount g (i : ℤ) (j : ℤ) = 2 ∨
        mooreCount g (i : ℤ) (j : ℤ) = 3
    · rw [if_pos (by omega), if_pos h23]
    · rw [if_neg (by omega), if_neg h23]
  · intro hempty
    rw [getItem_nat hv hi hj] at hempty
    rw [getItem_nat hv' hi' hj', hcell i j hi hj]
    unfold ruleOpt
    rw [hempty]
    simp only [Option.map_some']
    unfold ruleValue
    rw [if_neg (by decide)]

theorem claim_C4_witness :
    validGrid blinkerH ∧ 2 < blinkerH.width.toNat ∧
    2 < blinkerH.height.toNat ∧
    (∃ g', step blinkerH = some g' ∧
      (blinkerH.getItem ((2 : ℤ), (2 : ℤ)) = some FILLED →
        g'.getItem ((2 : ℤ), (2 : ℤ)) =
          some (if mooreCount blinkerH 2 2 = 2 ∨ mooreCount blinkerH 2 2 = 3
            then FILLED else EMPTY)) ∧
      (blinkerH.getItem ((2 : ℤ), (2 : ℤ)) = some EMPTY →
        g'.getItem ((2 : ℤ), (2 : ℤ)) =
          some (if mooreCount blinkerH 2 2 = 3 then FILLED else EMPTY))) :=
  ⟨by decide, by decide, by decide,
    claim_C4 blinkerH (by decide) 2 2 (by decide) (by decide)⟩

/-- C5: the trigonometric enumeration used by `step` —
`(round_out(cos(nπ/4)), round_out(sin(nπ/4)))` for `n = 0..7` — produces
exactly the eight fixed Moore-neighbourhood offsets, in order. -/
theorem claim_C5 :
    (List.range 8).map (fun n => (offx n, offy n)) = mooreOffsets := by
  rw [show List.range 8 = [0, 1, 2, 3, 4, 5, 6, 7] from rfl]
  simp only [List.map_cons, List.map_nil, offx_0, offx_1, offx_2, offx_3,
    offx_4, offx_5, offx_6, offx_7, offy_0, offy_1, offy_2, offy_3, offy_4,
    offy_5, offy_6, offy_7, mooreOffsets]

/-- C6: blinker oscillation on the 5×5 grid — one step turns the
horizontal row (1,2),(2,2),(3,2) into exactly the vertical column
(2,1),(2,2),(2,3); a second step restores the original cells
(period-2 oscillator), with the generation counting 0, 1, 2. -/
theorem claim_C6 :
    step blinkerH = some blinkerV ∧
    step blinkerV = some blinkerH2 ∧
    blinkerH2.data = blinkerH.data ∧
    blinkerH2.generation = blinkerH.generation + 2 ∧
    (∀ x : ℕ, x < 5 → ∀ y : ℕ, y < 5 →
      (cellAt blinkerV x y = some FILLED ↔
        (x, y) ∈ ([(2, 1), (2, 2), (2, 3)] : List (ℕ × ℕ)))) ∧
    (∀ x : ℕ, x < 5 → ∀ y : ℕ, y < 5 →
      (cellAt blinkerH x y = some FILLED ↔
        (x, y) ∈ ([(1, 2), (2, 2), (3, 2)] : List (ℕ × ℕ)))) := by
  rw [step_eq_stepT]
  refine ⟨?_, ?_, ?_, ?_, ?_, ?_⟩ <;> decide

/-- C7: stamping is idempotent — on any valid grid, stamping the same
pattern at the same anchor twice yields exactly the grid obtained by
stamping it once. -/
theorem claim_C7 (g : Grid) (hv : validGrid g) (p : List (ℤ × ℤ))
    (x y : ℤ) :
    (add_pattern g p x y).bind (fun g1 => add_pattern g1 p x y) =
      add_pattern g p x y := by
  obtain ⟨g', h1, _, _, _, hv', hfill, _⟩ := add_pattern_spec p g hv x y
  rw [h1, Option.some_bind]
  exact add_pattern_noop hv' p x y hfill

theorem claim_C7_witness :
    validGrid (Grid.init 4 3) ∧
    (add_pattern (Grid.init 4 3) PATTERN_BLOCK 1 1).bind
        (fun g1 => add_pattern g1 PATTERN_BLOCK 1 1) =
      add_pattern (Grid.init 4 3) PATTERN_BLOCK 1 1 :=
  ⟨by decide, claim_C7 (Grid.init 4 3) (by decide) PATTERN_BLOCK 1 1⟩

/-- C8: the 1×1 grid is a valid degenerate torus — construction succeeds,
every one of the 8 neighbour offsets wraps back onto the single cell, so a
Filled cell's own state is counted exactly 8 times (and the unmodified
rule then kills it), while an Empty cell counts 0 neighbours and stays
Empty. -/
theorem claim_C8 :
    validGrid (Grid.init 1 1) ∧
    (∀ d ∈ mooreOffsets,
      oneFilled.getItem (0 + d.1, 0 + d.2) = oneFilled.getItem (0, 0)) ∧
    mooreCount oneFilled 0 0 = 8 ∧
    step oneFilled =
      some ({ width := 1, height := 1, data := [[EMPTY]], generation := 1 } : Grid) ∧
    mooreCount (Grid.init 1 1) 0 0 = 0 ∧
    step (Grid.init 1 1) =
      some ({ width := 1, height := 1, data := [[EMPTY]], generation := 1 } : Grid) := by
  rw [step_eq_stepT]
  refine ⟨?_, ?_, ?_, ?_, ?_, ?_⟩ <;> decide

/-- C9: every core operation preserves the shape invariant (exactly
`height` rows of `width` cells), and every access first normalizes both
coordinates by the floor modulus into `[0, width) × [0, height)`, so no
access can touch a position outside the grid. -/
theorem claim_C9 (g : Grid) (hv : validGrid g) :
    (∀ w h : ℤ, 0 < w → 0 < h → validGrid (Grid.init w h)) ∧
    (∀ (x y : ℤ) (v : String),
      ∃ g', g.setItem (x, y) v = some g' ∧ validGrid g') ∧
    (∀ (p : List (ℤ × ℤ)) (x y : ℤ),
      ∃ g', add_pattern g p x y = some g' ∧ validGrid g') ∧
    (∃ g', step g = some g' ∧ validGrid g') ∧
    (∀ x y : ℤ,
      0 ≤ Int.fmod x g.width ∧ Int.fmod x g.width < g.width ∧
      0 ≤ Int.fmod y g.height ∧ Int.fmod y g.height < g.height ∧
      g.getItem (x, y) =
        cellAt g (Int.fmod x g.width).toNat (Int.fmod y g.height).toNat) := by
  refine ⟨fun w h hw hh => init_valid hw hh, ?_, ?_, ?_, ?_⟩
  · intro x y v
    obtain ⟨g', h1, _, _, _, h5, _⟩ := setItem_valid hv x y v
    exact ⟨g', h1, h5⟩
  · intro p x y
    obtain ⟨g', h1, _, _, _, h5, _, _⟩ := add_pattern_spec p g hv x y
    exact ⟨g', h1, h5⟩
  · rw [step_eq_stepT]
    obtain ⟨g', h1, _, _, _, h5, _⟩ := stepT_spec hv
    exact ⟨g', h1, h5⟩
  · intro x y
    exact ⟨Int.fmod_nonneg' x hv.1, Int.fmod_lt_of_pos x hv.1,
      Int.fmod_nonneg' y hv.2.1, Int.fmod_lt_of_pos y hv.2.1,
      getItem_eq_cellAt hv.1 hv.2.1 x y⟩

theorem claim_C9_witness :
    validGrid blinkerH ∧
    ((∀ w h : ℤ, 0 < w → 0 < h → validGrid (Grid.init w h)) ∧
     (∀ (x y : ℤ) (v : String),
       ∃ g', blinkerH.setItem (x, y) v = some g' ∧ validGrid g') ∧
     (∀ (p : List (ℤ × ℤ)) (x y : ℤ),
       ∃ g', add_pattern blinkerH p x y = some g' ∧ validGrid g') ∧
     (∃ g', step blinkerH = some g' ∧ validGrid g') ∧
     (∀ x y : ℤ,
       0 ≤ Int.fmod x blinkerH.width ∧
       Int.fmod x blinkerH.width < blinkerH.width ∧
       0 ≤ Int.fmod y blinkerH.height ∧
       Int.fmod y blinkerH.height < blinkerH.height ∧
       blinkerH.getItem (x, y) = cellAt blinkerH
         (Int.fmod x blinkerH.width).toNat
         (Int.fmod y blinkerH.height).toNat)) :=
  ⟨by decide, claim_C9 blinkerH (by decide)⟩

/-- C10: the cell-state domain is closed — if every cell of `g` is
`EMPTY` or `FILLED`, so is every cell of a successful `step g`, and
`add_pattern` (which writes only `FILLED`) likewise preserves the
two-valued domain. -/
theorem claim_C10 (g g1 g2 : Grid) (p : List (ℤ × ℤ)) (x y : ℤ)
    (htv : twoValued g) :
    (step g = some g1 → twoValued g1) ∧
    (add_pattern g p x y = some g2 → twoValued g2) := by
  constructor
  · intro h
    exact stepWith_twoValued h htv
  · intro h
    exact add_pattern_twoValued h htv

theorem claim_C10_witness :
    twoValued blinkerH ∧
    ((step blinkerH = some blinkerV → twoValued blinkerV) ∧
     (add_pattern blinkerH PATTERN_BLOCK 0 0 = some blinkerH →
       twoValued blinkerH)) :=
  ⟨by decide, claim_C10 blinkerH blinkerV blinkerH PATTERN_BLOCK 0 0 (by decide)⟩
